import Mathlib

/- Verification of the hand-written Transformer implementation of
   session_9/transformer_architectur.ipynb (PositionalEncoding,
   MultiHeadAttention, FeedForward, EncoderLayer, Transformer.create_mask and
   the encoder half of Transformer.forward) against its specification.

   Modelling conventions:
   - real-valued tensors are functions into the real numbers, with shapes
     carried either in the types (Fin-indexed) or as explicit fields;
   - boolean mask tensors are functions into Bool;
   - dropout is embedded in eval mode, where it is the identity;
   - masked_fill writes negative infinity into the score tensor, so masked
     scores live in the affinely extended reals EReal, and the IEEE value
     exp(-inf) = 0 is the extension of exp with value 0 at the bottom
     element;
   - PyTorch shape errors (broadcasting failures, slice-assignment shape
     mismatches, failed assertions) are embedded as Option-returning
     operations that yield none. -/

namespace TfSpec

/-- A rank-3 real tensor with explicit shape fields and unchecked
    (natural-number indexed) entries; entries outside the shape are junk. -/
structure Tensor3 where
  b : ℕ
  n : ℕ
  d : ℕ
  ent : ℕ → ℕ → ℕ → ℝ

/-- PyTorch broadcast compatibility of one dimension pair: the sizes are
    equal or one of them is 1. -/
def bcastDimOk (a b : ℕ) : Bool := a == b || a == 1 || b == 1

/-- Size of the broadcast of one dimension pair (meaningful when
    bcastDimOk holds): a size-1 dimension is stretched to the other size. -/
def bcastDim (a b : ℕ) : ℕ := if a = 1 then b else a

/-- Reading index into one operand of a broadcast operation: a size-1
    dimension is always read at index 0. -/
def bcastIdx (size i : ℕ) : ℕ := if size = 1 then 0 else i

/-- Broadcasting addition of two rank-3 tensors (torch elementwise-add
    semantics): fails when some dimension pair is incompatible. -/
noncomputable def bAdd (x y : Tensor3) : Option Tensor3 :=
  if bcastDimOk x.b y.b && bcastDimOk x.n y.n && bcastDimOk x.d y.d then
    some ⟨bcastDim x.b y.b, bcastDim x.n y.n, bcastDim x.d y.d,
      fun a i j => x.ent (bcastIdx x.b a) (bcastIdx x.n i) (bcastIdx x.d j)
                 + y.ent (bcastIdx y.b a) (bcastIdx y.n i) (bcastIdx y.d j)⟩
  else none

namespace PositionalEncoding

/-- Length of torch.arange(0, d_model, 2), the number of frequency columns
    of div_term: the ceiling of half of d_model. -/
def numFreqs (dModel : ℕ) : ℕ := (dModel + 1) / 2

/-- Number of odd-indexed columns of the table, the width of the slice
    pe[:, 1::2]: the floor of half of d_model. -/
def numOddCols (dModel : ℕ) : ℕ := dModel / 2

/-- Condition for copying a source dimension of size src into a destination
    dimension of size dst: Tensor.copy_ (used by slice assignment) expands
    the source to the destination shape, so the sizes must match or the
    source size must be 1. -/
def copyDimOk (src dst : ℕ) : Bool := src == dst || src == 1

/-- Whether PositionalEncoding.__init__ succeeds.  The cosine tensor
    torch.cos(position * div_term), of shape [max_seq_length, numFreqs],
    is assigned into the slice pe[:, 1::2] of shape
    [max_seq_length, numOddCols]; the assignment copies after broadcasting
    the source to the slice shape and raises when the column counts are
    incompatible.  (The sine assignment into pe[:, 0::2] always has
    matching column counts, numFreqs on both sides.) -/
def initOk (dModel : ℕ) : Bool := copyDimOk (numFreqs dModel) (numOddCols dModel)

/-- Entry i of
    div_term = torch.exp(torch.arange(0, d_model, 2).float() * (-math.log(10000.0) / d_model)). -/
noncomputable def divTerm (dModel i : ℕ) : ℝ :=
  Real.exp (((2 * i : ℕ) : ℝ) * (-Real.log 10000 / (dModel : ℝ)))

/-- Entry [pos, j] of the positional-encoding table: column 2i holds
    sin(position * div_term[i]) (assignment pe[:, 0::2]) and column 2i+1
    holds cos(position * div_term[i]) (assignment pe[:, 1::2]). -/
noncomputable def peEntry (dModel pos j : ℕ) : ℝ :=
  if j % 2 = 0 then Real.sin (pos * divTerm dModel (j / 2))
  else Real.cos (pos * divTerm dModel (j / 2))

/-- Embeds PositionalEncoding.__init__: builds the table of shape
    [max_seq_length, d_model], or fails (none) when the cosine slice
    assignment has an incompatible shape. -/
noncomputable def init (dModel maxSeqLength : ℕ) :
    Option (Fin maxSeqLength → Fin dModel → ℝ) :=
  if initOk dModel then some (fun pos j => peEntry dModel pos j) else none

/-- The registered buffer self.pe (the table after unsqueeze(0)), sliced
    as self.pe[:, :L]: shape [1, min L max_seq_length, d_model]. -/
noncomputable def peBufferSlice (dModel maxSeqLength L : ℕ) : Tensor3 :=
  ⟨1, min L maxSeqLength, dModel, fun _ i j => peEntry dModel i j⟩

/-- Embeds PositionalEncoding.forward: return x + self.pe[:, : x.size(1)]. -/
noncomputable def forward (dModel maxSeqLength : ℕ) (x : Tensor3) : Option Tensor3 :=
  bAdd x (peBufferSlice dModel maxSeqLength x.n)

end PositionalEncoding

namespace Transformer

variable {B Ls Lt : ℕ}

/-- Entry [0, i, j] of torch.triu(torch.ones(1, L, L), diagonal=1): ones on
    and above the first superdiagonal.  The float tensor only holds the
    integral values 0 and 1 and is modelled over the integers. -/
def triuOnes (L : ℕ) (i j : Fin L) : ℤ := if (i : ℕ) + 1 ≤ (j : ℕ) then 1 else 0

/-- Entry [0, i, j] of the no-peek mask (1 - torch.triu(torch.ones(1, L, L), diagonal=1)).bool(). -/
def nopeak (L : ℕ) (i j : Fin L) : Bool := (1 - triuOnes L i j) != 0

/-- Embeds src_mask = (src != 0).unsqueeze(1).unsqueeze(2), of shape
    [batch, 1, 1, src_len]; token tensors are integer-valued. -/
def srcMask (src : Fin B → Fin Ls → ℤ) : Fin B → Fin 1 → Fin 1 → Fin Ls → Bool :=
  fun b _ _ j => src b j != 0

/-- Embeds the target padding mask (tgt != 0).unsqueeze(1).unsqueeze(2),
    of shape [batch, 1, 1, tgt_len]. -/
def tgtPadMask (tgt : Fin B → Fin Lt → ℤ) : Fin B → Fin 1 → Fin 1 → Fin Lt → Bool :=
  fun b _ _ j => tgt b j != 0

/-- Embeds tgt_mask = tgt_mask & nopeak_mask: the broadcast AND of the
    [batch, 1, 1, L] padding mask with the [1, L, L] no-peek mask, of
    shape [batch, 1, L, L]; the singleton key-query dimension of the
    padding mask and the singleton leading dimension of the no-peek mask
    are read at index 0. -/
def tgtMask (tgt : Fin B → Fin Lt → ℤ) : Fin B → Fin 1 → Fin Lt → Fin Lt → Bool :=
  fun b u i j => tgtPadMask tgt b u ⟨0, Nat.one_pos⟩ j && nopeak Lt i j

end Transformer

/-- Helper: the no-peek mask entry is true exactly when the key position is
    at or before the query position. -/
theorem nopeak_iff (L : ℕ) (i j : Fin L) :
    Transformer.nopeak L i j = true ↔ (j : ℕ) ≤ (i : ℕ) := by
  unfold Transformer.nopeak Transformer.triuOnes
  by_cases h : (i : ℕ) + 1 ≤ (j : ℕ) <;> simp [h] <;> omega

/-- C2: Transformer.create_mask returns src_mask with src_mask[b,0,0,j] true
    iff src[b,j] != 0, and tgt_mask equal to the pointwise AND of the target
    padding mask (tgt[b,j] != 0, broadcast over query positions) with the
    causal mask whose entry at query position i and key position j is true
    iff j <= i. -/
theorem C2_create_mask (B Ls Lt : ℕ) (src : Fin B → Fin Ls → ℤ)
    (tgt : Fin B → Fin Lt → ℤ) (b : Fin B) (u v : Fin 1) (j : Fin Ls)
    (i j' : Fin Lt) :
    (Transformer.srcMask src b u v j = true ↔ src b j ≠ 0) ∧
    (Transformer.tgtMask tgt b u i j' = true ↔
      (tgt b j' ≠ 0 ∧ (j' : ℕ) ≤ (i : ℕ))) := by
  refine ⟨by simp [Transformer.srcMask], ?_⟩
  simp [Transformer.tgtMask, Transformer.tgtPadMask, nopeak_iff]

/-- C10 counterexample: with d_model = 1 (odd), PositionalEncoding
    construction succeeds rather than raising: the single cosine column
    broadcasts into the empty odd-column slice (a size-1 source dimension
    copies into a size-0 destination dimension), assigning nothing. -/
theorem C10_counterexample : (PositionalEncoding.init 1 10).isSome = true := by
  rfl

/-- C10 amended: PositionalEncoding construction fails exactly for odd
    d_model at least 3.  The cosine tensor has ceil(d_model/2) frequency
    columns while the odd-column slice has floor(d_model/2) columns, and
    the slice assignment is a shape error unless the counts match (even
    d_model) or the source consists of a single broadcastable column
    (d_model = 1, where it assigns nothing). -/
theorem C10_amended (dModel maxSeqLength : ℕ) :
    PositionalEncoding.init dModel maxSeqLength = none ↔
      (dModel % 2 = 1 ∧ 3 ≤ dModel) := by
  have hiff : (PositionalEncoding.initOk dModel = false) ↔
      (dModel % 2 = 1 ∧ 3 ≤ dModel) := by
    simp only [PositionalEncoding.initOk, PositionalEncoding.copyDimOk,
      PositionalEncoding.numFreqs, PositionalEncoding.numOddCols,
      Bool.or_eq_false_iff, beq_eq_false_iff_ne, ne_eq]
    omega
  rw [← hiff]
  unfold PositionalEncoding.init
  rcases h : PositionalEncoding.initOk dModel with _ | _
  · simp [h]
  · simp [h]

/-- Helper: broadcasting a size onto itself keeps it. -/
theorem bcastDim_self (a : ℕ) : bcastDim a a = a := by
  unfold bcastDim; split <;> omega

/-- Helper: broadcasting against a singleton dimension keeps the size. -/
theorem bcastDim_one (a : ℕ) : bcastDim a 1 = a := by
  unfold bcastDim; split <;> omega

/-- Helper: an in-range index reads itself through a broadcast. -/
theorem bcastIdx_lt (size i : ℕ) (h : i < size) : bcastIdx size i = i := by
  unfold bcastIdx; split <;> omega

/-- C9 counterexample: with max_seq_length = 1 and an input of sequence
    length 2 (so seq_len exceeds max_seq_length), PositionalEncoding.forward
    does not fail: the sliced buffer pe[:, :2] has position dimension 1,
    which broadcasts over the longer input, so the addition silently
    succeeds instead of raising. -/
theorem C9_counterexample :
    (PositionalEncoding.forward 4 1 ⟨1, 2, 4, fun _ _ _ => 0⟩).isSome = true := by
  rfl

/-- C9 amended: for input x of shape [batch, L, d_model]: if
    L <= max_seq_length, forward returns x + PE[:L] broadcast over batch;
    if L > max_seq_length the broadcast addition raises, except when
    max_seq_length = 1 (the single buffer row broadcasts over all L
    positions) or max_seq_length = 0 with L = 1 (the single input row
    broadcasts against the empty buffer, yielding an empty result), in
    which cases forward silently returns. -/
theorem C9_amended (dModel maxSeqLength batch L : ℕ) (e : ℕ → ℕ → ℕ → ℝ) :
    (L ≤ maxSeqLength →
      ∃ y, PositionalEncoding.forward dModel maxSeqLength ⟨batch, L, dModel, e⟩ =
          some y ∧
        y.b = batch ∧ y.n = L ∧ y.d = dModel ∧
        ∀ a i j, a < batch → i < L → j < dModel →
          y.ent a i j = e a i j + PositionalEncoding.peEntry dModel i j) ∧
    (maxSeqLength < L →
      ((PositionalEncoding.forward dModel maxSeqLength
          ⟨batch, L, dModel, e⟩).isSome ↔
        (maxSeqLength = 1 ∨ (maxSeqLength = 0 ∧ L = 1)))) := by
  constructor
  · intro h
    have hmin : min L maxSeqLength = L := Nat.min_eq_left h
    unfold PositionalEncoding.forward bAdd PositionalEncoding.peBufferSlice
    simp only [hmin]
    have hok : (bcastDimOk batch 1 && bcastDimOk L L && bcastDimOk dModel dModel)
        = true := by
      simp [bcastDimOk]
    rw [if_pos hok]
    refine ⟨_, rfl, bcastDim_one batch, bcastDim_self L, bcastDim_self dModel,
      fun a i j ha hi hj => ?_⟩
    simp only [bcastIdx_lt batch a ha, bcastIdx_lt L i hi, bcastIdx_lt dModel j hj]
  · intro h
    have hmin : min L maxSeqLength = maxSeqLength := Nat.min_eq_right (Nat.le_of_lt h)
    unfold PositionalEncoding.forward bAdd PositionalEncoding.peBufferSlice
    simp only [hmin]
    by_cases hc : (bcastDimOk batch 1 && bcastDimOk L maxSeqLength &&
        bcastDimOk dModel dModel) = true
    · rw [if_pos hc]
      simp only [Option.isSome_some, true_iff]
      simp only [bcastDimOk, Bool.and_eq_true, Bool.or_eq_true, beq_iff_eq] at hc
      omega
    · rw [if_neg hc]
      simp only [Option.isSome_none, Bool.false_eq_true, false_iff]
      intro hcon
      apply hc
      simp [bcastDimOk]
      rcases hcon with h1 | ⟨h0, hL1⟩ <;> omega

/-- C9 witness: the amended theorem applied at max_seq_length = 1 and an
    input of shape [3, 2, 4]. -/
theorem C9_witness :
    1 < 2 ∧
      ((PositionalEncoding.forward 4 1 ⟨3, 2, 4, fun _ _ _ => 1⟩).isSome ↔
        (1 = 1 ∨ (1 = 0 ∧ 2 = 1))) :=
  ⟨by omega, (C9_amended 4 1 3 2 (fun _ _ _ => 1)).2 (by omega)⟩

/-- Helper: the product of a position with a div_term entry is the position
    divided by 10000 raised to the fractional power 2i / d_model. -/
theorem pos_mul_divTerm (dModel i : ℕ) (pos : ℝ) :
    pos * PositionalEncoding.divTerm dModel i =
      pos / (10000 : ℝ) ^ (((2 * i : ℕ) : ℝ) / (dModel : ℝ)) := by
  unfold PositionalEncoding.divTerm
  rw [show (((2 * i : ℕ) : ℝ) * (-Real.log 10000 / (dModel : ℝ))) =
      Real.log 10000 * (-(((2 * i : ℕ) : ℝ) / (dModel : ℝ))) by push_cast; ring]
  rw [← Real.rpow_def_of_pos (by norm_num : (0 : ℝ) < 10000)]
  rw [Real.rpow_neg (by norm_num : (0 : ℝ) ≤ 10000)]
  exact (div_eq_mul_inv pos _).symm

/-- C3: whenever the PositionalEncoding constructor succeeds, the table it
    builds has shape [max_seq_length, d_model] (the index types of pe) and
    satisfies, for every position pos and even feature index j = 2i,
    PE[pos, j] = sin(pos / 10000^(2i/d_model)), and for odd feature index
    j = 2i+1, PE[pos, j] = cos(pos / 10000^(2i/d_model)). -/
theorem C3_pe_table (dModel maxSeqLength : ℕ)
    (pe : Fin maxSeqLength → Fin dModel → ℝ)
    (hinit : PositionalEncoding.init dModel maxSeqLength = some pe)
    (pos : Fin maxSeqLength) (j : Fin dModel) :
    ((j : ℕ) % 2 = 0 →
      pe pos j = Real.sin (((pos : ℕ) : ℝ) /
        (10000 : ℝ) ^ ((((j : ℕ) : ℕ) : ℝ) / (dModel : ℝ)))) ∧
    ((j : ℕ) % 2 = 1 →
      pe pos j = Real.cos (((pos : ℕ) : ℝ) /
        (10000 : ℝ) ^ ((((j : ℕ) - 1 : ℕ) : ℝ) / (dModel : ℝ)))) := by
  have hpe : pe = fun (p : Fin maxSeqLength) (q : Fin dModel) =>
      PositionalEncoding.peEntry dModel p q := by
    unfold PositionalEncoding.init at hinit
    split at hinit
    · simp only [Option.some.injEq] at hinit
      exact hinit.symm
    · exact Option.noConfusion hinit
  subst hpe
  constructor
  · intro hev
    show PositionalEncoding.peEntry dModel pos j = _
    unfold PositionalEncoding.peEntry
    rw [if_pos hev, pos_mul_divTerm,
      show 2 * ((j : ℕ) / 2) = (j : ℕ) from by omega]
  · intro hodd
    show PositionalEncoding.peEntry dModel pos j = _
    unfold PositionalEncoding.peEntry
    rw [if_neg (by omega), pos_mul_divTerm,
      show 2 * ((j : ℕ) / 2) = (j : ℕ) - 1 from by omega]

/-- C3 witness: the table theorem applied at d_model = 2,
    max_seq_length = 1, position 0, feature index 0. -/
theorem C3_witness :
    (PositionalEncoding.init 2 1 =
      some (fun (p : Fin 1) (q : Fin 2) => PositionalEncoding.peEntry 2 p q)) ∧
    ((((0 : Fin 2) : ℕ) % 2 = 0 →
      PositionalEncoding.peEntry 2 ((0 : Fin 1) : ℕ) ((0 : Fin 2) : ℕ) =
        Real.sin ((((0 : Fin 1) : ℕ) : ℝ) /
          (10000 : ℝ) ^ (((((0 : Fin 2) : ℕ) : ℕ) : ℝ) / (2 : ℝ)))) ∧
     (((0 : Fin 2) : ℕ) % 2 = 1 →
      PositionalEncoding.peEntry 2 ((0 : Fin 1) : ℕ) ((0 : Fin 2) : ℕ) =
        Real.cos ((((0 : Fin 1) : ℕ) : ℝ) /
          (10000 : ℝ) ^ (((((0 : Fin 2) : ℕ) - 1 : ℕ) : ℝ) / (2 : ℝ))))) :=
  ⟨rfl, C3_pe_table 2 1 _ rfl 0 0⟩

/-- Dropout in eval mode is the identity. -/
def dropoutEval {α : Sort _} (x : α) : α := x

namespace MultiHeadAttention

variable {q k dk dv : ℕ}

/-- Extension of exp to the affinely extended reals following IEEE floats:
    exp of negative infinity is 0.  (The top element never arises here,
    since masked_fill only writes negative infinity; its value is junk.) -/
noncomputable def eexp (x : EReal) : ℝ :=
  if x = ⊥ then 0 else if x = ⊤ then 0 else Real.exp x.toReal

/-- Helper: eexp agrees with exp on finite values. -/
theorem eexp_coe (r : ℝ) : eexp ((r : ℝ) : EReal) = Real.exp r := by
  unfold eexp
  rw [if_neg (EReal.coe_ne_bot r), if_neg (EReal.coe_ne_top r), EReal.toReal_coe]

/-- Helper: eexp of negative infinity is 0. -/
theorem eexp_bot : eexp (⊥ : EReal) = 0 := if_pos rfl

/-- Helper: eexp is nonnegative. -/
theorem eexp_nonneg (x : EReal) : 0 ≤ eexp x := by
  unfold eexp
  split
  · exact le_refl 0
  · split
    · exact le_refl 0
    · exact (Real.exp_pos _).le

/-- Embeds scores = torch.matmul(Q, K.transpose(-2, -1)) / math.sqrt(self.d_k)
    for one [q_len, d_k] query slice against one [k_len, d_k] key slice; in
    the forward pass the configured self.d_k is the feature dimension of Q
    and K. -/
noncomputable def scores (dk : ℕ) (Q : Fin q → Fin dk → ℝ)
    (K : Fin k → Fin dk → ℝ) : Fin q → Fin k → ℝ :=
  fun i j => (∑ t, Q i t * K j t) / Real.sqrt dk

/-- Embeds scores.masked_fill(mask == 0, float("-inf")): where the mask is
    false the score becomes negative infinity, otherwise it is unchanged. -/
def maskedFill (s : Fin q → Fin k → ℝ) (m : Fin q → Fin k → Bool) :
    Fin q → Fin k → EReal :=
  fun i j => if m i j then ((s i j : ℝ) : EReal) else ⊥

/-- Scores after the optional masking branch of
    scaled_dot_product_attention: masked_fill when a mask is given, the
    plain scores otherwise. -/
def maskedScores (s : Fin q → Fin k → ℝ)
    (m : Option (Fin q → Fin k → Bool)) : Fin q → Fin k → EReal :=
  match m with
  | none => fun i j => ((s i j : ℝ) : EReal)
  | some mm => maskedFill s mm

/-- Embeds torch.softmax(scores, dim=-1) on possibly minus-infinite scores,
    row by row over the key dimension, with exp(-inf) = 0.  A row whose
    entries are all minus infinity has denominator 0; real division by 0
    yields 0 here, where IEEE floats yield NaN, so statements about such
    rows are guarded by a valid-key hypothesis. -/
noncomputable def softmaxRows (s : Fin q → Fin k → EReal) : Fin q → Fin k → ℝ :=
  fun i j => eexp (s i j) / ∑ j', eexp (s i j')

/-- Embeds MultiHeadAttention.scaled_dot_product_attention on one
    [q_len, d_k] slice (one batch element, one head): the attention weights
    are the row softmax of the masked scores, dropout is applied to the
    weights (the identity in eval mode), and the result is
    torch.matmul(attention_weights, V). -/
noncomputable def scaled_dot_product_attention (dk : ℕ)
    (Q : Fin q → Fin dk → ℝ) (K : Fin k → Fin dk → ℝ)
    (V : Fin k → Fin dv → ℝ) (m : Option (Fin q → Fin k → Bool)) :
    Fin q → Fin dv → ℝ :=
  fun i t =>
    ∑ j, dropoutEval (softmaxRows (maskedScores (scores dk Q K) m)) i j * V j t

/-- Batched scaled_dot_product_attention over [batch, heads, q_len, d_k]
    inputs; an optional mask already broadcast to
    [batch, heads, q_len, k_len] is a function of all four indices. -/
noncomputable def sdpaBatched (b h q k dk dv : ℕ)
    (Q : Fin b → Fin h → Fin q → Fin dk → ℝ)
    (K : Fin b → Fin h → Fin k → Fin dk → ℝ)
    (V : Fin b → Fin h → Fin k → Fin dv → ℝ)
    (m : Option (Fin b → Fin h → Fin q → Fin k → Bool)) :
    Fin b → Fin h → Fin q → Fin dv → ℝ :=
  fun bb hh => scaled_dot_product_attention dk (Q bb hh) (K bb hh) (V bb hh)
    (m.map (fun mm => mm bb hh))

/-- Whether a key position passes an optional mask (no mask passes all). -/
def maskPass (m : Option (Fin q → Fin k → Bool)) (i : Fin q) (j : Fin k) :
    Bool :=
  match m with
  | none => true
  | some mm => mm i j

/-- The specification's attention weights, written directly from the
    specification text: the weight of key j for query i is exp of the
    score (or 0 where the mask is 0), normalised by the row total. -/
noncomputable def specWeights (dk : ℕ) (Q : Fin q → Fin dk → ℝ)
    (K : Fin k → Fin dk → ℝ) (m : Option (Fin q → Fin k → Bool)) :
    Fin q → Fin k → ℝ :=
  fun i j =>
    (if maskPass m i j = true then Real.exp (scores dk Q K i j) else 0) /
      ∑ j', if maskPass m i j' = true then Real.exp (scores dk Q K i j') else 0

/-- The specification's attention output for one slice: the spec weight
    matrix multiplied by V. -/
noncomputable def attentionSpec (dk : ℕ) (Q : Fin q → Fin dk → ℝ)
    (K : Fin k → Fin dk → ℝ) (V : Fin k → Fin dv → ℝ)
    (m : Option (Fin q → Fin k → Bool)) : Fin q → Fin dv → ℝ :=
  fun i t => ∑ j, specWeights dk Q K m i j * V j t

/-- The specification's attention output, batched like sdpaBatched. -/
noncomputable def attentionSpecBatched (b h q k dk dv : ℕ)
    (Q : Fin b → Fin h → Fin q → Fin dk → ℝ)
    (K : Fin b → Fin h → Fin k → Fin dk → ℝ)
    (V : Fin b → Fin h → Fin k → Fin dv → ℝ)
    (m : Option (Fin b → Fin h → Fin q → Fin k → Bool)) :
    Fin b → Fin h → Fin q → Fin dv → ℝ :=
  fun bb hh => attentionSpec dk (Q bb hh) (K bb hh) (V bb hh)
    (m.map (fun mm => mm bb hh))

/-- Helper: eexp of a masked score is exp of the score where the mask
    passes and 0 where it does not. -/
theorem eexp_maskedScores (s : Fin q → Fin k → ℝ)
    (m : Option (Fin q → Fin k → Bool)) (i : Fin q) (j : Fin k) :
    eexp (maskedScores s m i j) =
      if maskPass m i j = true then Real.exp (s i j) else 0 := by
  cases m with
  | none =>
    show eexp ((s i j : ℝ) : EReal) =
      if (true : Bool) = true then Real.exp (s i j) else 0
    rw [if_pos rfl]
    exact eexp_coe (s i j)
  | some mm =>
    show eexp (if mm i j = true then ((s i j : ℝ) : EReal) else ⊥) =
      if mm i j = true then Real.exp (s i j) else 0
    by_cases hm : mm i j = true
    · rw [if_pos hm, if_pos hm]
      exact eexp_coe (s i j)
    · rw [if_neg hm, if_neg hm]
      exact eexp_bot

end MultiHeadAttention

/-- C1: for every Q, K, V of shapes [batch, heads, q_len, d_k],
    [batch, heads, k_len, d_k], [batch, heads, k_len, d_k] and every
    optional mask broadcast to [batch, heads, q_len, k_len],
    scaled_dot_product_attention returns
    softmax((Q Kᵗ)/sqrt(d_k), with entries set to negative infinity
    wherever the mask is 0) multiplied by V, with dropout applied to the
    softmax weights between the softmax and the multiplication by V
    (dropout is the identity in eval mode, as embedded here). -/
theorem C1_sdpa_spec (b h q k dk dv : ℕ)
    (Q : Fin b → Fin h → Fin q → Fin dk → ℝ)
    (K : Fin b → Fin h → Fin k → Fin dk → ℝ)
    (V : Fin b → Fin h → Fin k → Fin dv → ℝ)
    (m : Option (Fin b → Fin h → Fin q → Fin k → Bool)) :
    MultiHeadAttention.sdpaBatched b h q k dk dv Q K V m =
      MultiHeadAttention.attentionSpecBatched b h q k dk dv Q K V m := by
  funext bb hh i t
  unfold MultiHeadAttention.sdpaBatched MultiHeadAttention.attentionSpecBatched
    MultiHeadAttention.scaled_dot_product_attention
    MultiHeadAttention.attentionSpec dropoutEval
  refine Finset.sum_congr rfl (fun j _ => ?_)
  congr 1
  unfold MultiHeadAttention.softmaxRows MultiHeadAttention.specWeights
  rw [MultiHeadAttention.eexp_maskedScores]
  congr 1
  exact Finset.sum_congr rfl (fun j' _ => MultiHeadAttention.eexp_maskedScores _ _ i j')

/-- C6: every query row of the attention score matrix whose mask row has at
    least one valid (unmasked) key has attention weights, produced by the
    softmax in scaled_dot_product_attention, summing to 1 along the key
    dimension (exactly, in real-number semantics). -/
theorem C6_weights_sum_one (q k dk : ℕ) (Q : Fin q → Fin dk → ℝ)
    (K : Fin k → Fin dk → ℝ) (m : Fin q → Fin k → Bool) (i : Fin q)
    (hvalid : ∃ j, m i j = true) :
    ∑ j, MultiHeadAttention.softmaxRows
      (MultiHeadAttention.maskedScores (MultiHeadAttention.scores dk Q K)
        (some m)) i j = 1 := by
  obtain ⟨j0, hj0⟩ := hvalid
  unfold MultiHeadAttention.softmaxRows
  rw [← Finset.sum_div]
  apply div_self
  apply ne_of_gt
  apply Finset.sum_pos'
  · exact fun j _ => MultiHeadAttention.eexp_nonneg _
  · refine ⟨j0, Finset.mem_univ j0, ?_⟩
    rw [MultiHeadAttention.eexp_maskedScores]
    rw [if_pos]
    · exact Real.exp_pos _
    · exact hj0

/-- C6 witness: a single-query, single-key, all-valid mask instance. -/
theorem C6_witness :
    (∃ j : Fin 1, (fun (_ : Fin 1) (_ : Fin 1) => true) (0 : Fin 1) j = true) ∧
      ∑ j, MultiHeadAttention.softmaxRows
        (MultiHeadAttention.maskedScores
          (MultiHeadAttention.scores 1 (fun (_ : Fin 1) (_ : Fin 1) => (0 : ℝ))
            (fun (_ : Fin 1) (_ : Fin 1) => (0 : ℝ)))
          (some (fun (_ : Fin 1) (_ : Fin 1) => true))) (0 : Fin 1) j = 1 :=
  ⟨⟨0, rfl⟩, C6_weights_sum_one 1 1 1 _ _ _ 0 ⟨0, rfl⟩⟩

/-- C4: for every target sequence, every query position i whose tgt_mask
    row has at least one valid key (excluding the degenerate all-masked
    row, whose floating-point softmax is NaN), and every key position
    j > i, the decoder self-attention weight from i to j, computed by the
    softmax of scaled_dot_product_attention under the tgt_mask produced by
    create_mask (broadcast over heads), is exactly 0. -/
theorem C4_causal_weight_zero (B Lt dk : ℕ) (tgt : Fin B → Fin Lt → ℤ)
    (b : Fin B) (u : Fin 1) (Q K : Fin Lt → Fin dk → ℝ) (i j : Fin Lt)
    (hij : (i : ℕ) < (j : ℕ))
    (_hvalid : ∃ j0, Transformer.tgtMask tgt b u i j0 = true) :
    MultiHeadAttention.softmaxRows
      (MultiHeadAttention.maskedScores (MultiHeadAttention.scores dk Q K)
        (some (fun i' j' => Transformer.tgtMask tgt b u i' j'))) i j = 0 := by
  have hm : Transformer.tgtMask tgt b u i j = false := by
    have hnp : Transformer.nopeak Lt i j = false := by
      rw [Bool.eq_false_iff]
      intro htrue
      have := (nopeak_iff Lt i j).mp htrue
      omega
    unfold Transformer.tgtMask
    rw [hnp, Bool.and_false]
  unfold MultiHeadAttention.softmaxRows
  rw [MultiHeadAttention.eexp_maskedScores]
  rw [if_neg (by simp [MultiHeadAttention.maskPass, hm])]
  exact zero_div _

/-- C4 witness: an unpadded length-2 target, query position 0, key
    position 1. -/
theorem C4_witness :
    ((0 : ℕ) < (1 : ℕ) ∧
      ∃ j0, Transformer.tgtMask (fun (_ : Fin 1) (_ : Fin 2) => (1 : ℤ))
        (0 : Fin 1) (0 : Fin 1) (0 : Fin 2) j0 = true) ∧
    MultiHeadAttention.softmaxRows
      (MultiHeadAttention.maskedScores
        (MultiHeadAttention.scores 1 (fun (_ : Fin 2) (_ : Fin 1) => (0 : ℝ))
          (fun (_ : Fin 2) (_ : Fin 1) => (0 : ℝ)))
        (some (fun i' j' =>
          Transformer.tgtMask (fun (_ : Fin 1) (_ : Fin 2) => (1 : ℤ))
            (0 : Fin 1) (0 : Fin 1) i' j'))) (0 : Fin 2) (1 : Fin 2) = 0 :=
  ⟨⟨by omega, by decide⟩,
    C4_causal_weight_zero 1 2 1 (fun _ _ => 1) 0 0 (fun _ _ => 0)
      (fun _ _ => 0) 0 1 (by omega) (by decide)⟩

/-- Embeds Python natural-number modulo, which raises ZeroDivisionError
    when the divisor is 0. -/
def pyMod (n m : ℕ) : Option ℕ := if m = 0 then none else some (n % m)

/-- The state stored by a successfully constructed MultiHeadAttention:
    d_model, num_heads and d_k = d_model // num_heads (the projection
    parameters are elided; forward passes are modelled over explicit
    parameter records). -/
structure MHAConfig where
  d_model : ℕ
  num_heads : ℕ
  d_k : ℕ

/-- Embeds MultiHeadAttention.__init__: evaluates the assertion
    d_model % num_heads == 0 (Python modulo, which itself raises when
    num_heads = 0) and fails at construction unless it holds; on success
    it stores d_model, num_heads and d_k. -/
def MultiHeadAttention.init (d_model num_heads : ℕ) : Option MHAConfig :=
  match pyMod d_model num_heads with
  | none => none
  | some r =>
      if r = 0 then some ⟨d_model, num_heads, d_model / num_heads⟩ else none

/-- C8: for every d_model and every positive num_heads, constructing
    MultiHeadAttention fails if and only if d_model is not divisible by
    num_heads, and the failure occurs at construction (the constructor
    itself returns none; a forward pass exists only for a constructed
    configuration).  num_heads = 0 also fails at construction, with a
    division-by-zero error inside the assertion. -/
theorem C8_init_divisibility (d_model num_heads : ℕ) (hpos : 1 ≤ num_heads) :
    MultiHeadAttention.init d_model num_heads = none ↔
      ¬ (num_heads ∣ d_model) := by
  have hiff : d_model % num_heads = 0 ↔ num_heads ∣ d_model :=
    Nat.dvd_iff_mod_eq_zero.symm
  unfold MultiHeadAttention.init pyMod
  rw [if_neg (by omega)]
  show (if d_model % num_heads = 0 then some _ else none) = none ↔ _
  by_cases hd : d_model % num_heads = 0
  · rw [if_pos hd]
    constructor
    · intro hcon
      exact Option.noConfusion hcon
    · intro hnd
      exact absurd (hiff.mp hd) hnd
  · rw [if_neg hd]
    exact ⟨fun _ hdvd => hd (hiff.mpr hdvd), fun _ => rfl⟩

/-- C8 witness: the divisibility theorem at d_model = 512, num_heads = 8. -/
theorem C8_witness :
    1 ≤ 8 ∧ (MultiHeadAttention.init 512 8 = none ↔ ¬ ((8 : ℕ) ∣ 512)) :=
  ⟨by omega, C8_init_divisibility 512 8 (by omega)⟩

/-- C7 counterexample: with tgt = [[0]] (a pad token at position 0), the
    decoder self-attention mask row for query position 0 has no valid key:
    the causal mask permits attending to position 0 itself, but the padding
    factor of tgt_mask masks it, so an all-minus-infinity softmax row is
    reachable inside Transformer.forward. -/
theorem C7_counterexample :
    ¬ ∃ j : Fin 1, Transformer.tgtMask (fun (_ : Fin 1) (_ : Fin 1) => (0 : ℤ))
      (0 : Fin 1) (0 : Fin 1) (0 : Fin 1) j = true := by
  decide

/-- C7 amended: provided every batch row of src contains a non-pad token
    and every batch row of tgt starts with a non-pad token, every query row
    of every attention invocation inside Transformer.forward has at least
    one valid key: encoder self-attention and decoder cross-attention rows
    are valid under src_mask (whose rows do not depend on the query
    position), and decoder self-attention rows are valid under tgt_mask
    because the causal mask permits position 0 and the first target token
    is not padding. -/
theorem C7_amended (B Ls Lt : ℕ) (src : Fin B → Fin Ls → ℤ)
    (tgt : Fin B → Fin Lt → ℤ)
    (hsrc : ∀ b, ∃ j, src b j ≠ 0)
    (htgt : ∀ b, ∀ h0 : 0 < Lt, tgt b ⟨0, h0⟩ ≠ 0)
    (b : Fin B) (u v : Fin 1) (i : Fin Lt) :
    (∃ j, Transformer.srcMask src b u v j = true) ∧
    (∃ j, Transformer.tgtMask tgt b u i j = true) := by
  constructor
  · obtain ⟨j, hj⟩ := hsrc b
    exact ⟨j, by simp [Transformer.srcMask, hj]⟩
  · have h0 : 0 < Lt := lt_of_le_of_lt (Nat.zero_le (i : ℕ)) i.isLt
    refine ⟨⟨0, h0⟩, ?_⟩
    have hpad : tgt b ⟨0, h0⟩ ≠ 0 := htgt b h0
    have hnp : Transformer.nopeak Lt i ⟨0, h0⟩ = true :=
      (nopeak_iff Lt i ⟨0, h0⟩).mpr (Nat.zero_le _)
    simp [Transformer.tgtMask, Transformer.tgtPadMask, hpad, hnp]

/-- C7 witness: the amended theorem at src = [[1]], tgt = [[2]]. -/
theorem C7_witness :
    ((∀ b : Fin 1, ∃ j : Fin 1, (fun (_ : Fin 1) (_ : Fin 1) => (1 : ℤ)) b j ≠ 0) ∧
     (∀ b : Fin 1, ∀ h0 : 0 < 1,
        (fun (_ : Fin 1) (_ : Fin 1) => (2 : ℤ)) b (⟨0, h0⟩ : Fin 1) ≠ 0)) ∧
    ((∃ j, Transformer.srcMask (fun (_ : Fin 1) (_ : Fin 1) => (1 : ℤ))
        (0 : Fin 1) (0 : Fin 1) (0 : Fin 1) j = true) ∧
     (∃ j, Transformer.tgtMask (fun (_ : Fin 1) (_ : Fin 1) => (2 : ℤ))
        (0 : Fin 1) (0 : Fin 1) (0 : Fin 1) j = true)) :=
  ⟨⟨by decide, by decide⟩,
    C7_amended 1 1 1 (fun _ _ => 1) (fun _ _ => 2) (by decide) (by decide)
      0 0 0 0⟩

/-- Parameters of one nn.Linear(dIn, dOut): weight of shape [dOut, dIn]
    and bias of shape [dOut]. -/
structure LinP (dIn dOut : ℕ) where
  w : Fin dOut → Fin dIn → ℝ
  bias : Fin dOut → ℝ

/-- Embeds nn.Linear.forward applied position-wise to a [L, dIn] matrix:
    y = x Wᵗ + b. -/
noncomputable def linFwd {L dIn dOut : ℕ} (p : LinP dIn dOut)
    (x : Fin L → Fin dIn → ℝ) : Fin L → Fin dOut → ℝ :=
  fun i o => (∑ t, p.w o t * x i t) + p.bias o

/-- Parameters of one MultiHeadAttention module: the four projections
    W_q, W_k, W_v, W_o, each d_model to d_model. -/
structure MHAP (D : ℕ) where
  wq : LinP D D
  wk : LinP D D
  wv : LinP D D
  wo : LinP D D

/-- Flat feature index of coordinate t of head h after
    view(batch, -1, num_heads, d_k).transpose(1, 2). -/
def headIdx (H dk : ℕ) (h : Fin H) (t : Fin dk) : Fin (H * dk) :=
  ⟨(h : ℕ) * dk + (t : ℕ), by
    have h1 : (h : ℕ) * dk + (t : ℕ) < ((h : ℕ) + 1) * dk := by
      rw [Nat.succ_mul]
      exact Nat.add_lt_add_left t.isLt _
    have h2 : ((h : ℕ) + 1) * dk ≤ H * dk :=
      Nat.mul_le_mul_right dk (Nat.succ_le_of_lt h.isLt)
    exact Nat.lt_of_lt_of_le h1 h2⟩

/-- Helper: a flat index into H * dk features forces dk positive. -/
theorem dk_pos_of_flat {H dk : ℕ} (d : Fin (H * dk)) : 0 < dk := by
  have hlt : (d : ℕ) < H * dk := d.isLt
  rcases Nat.eq_zero_or_pos dk with h | h
  · subst h
    simp at hlt
  · exact h

/-- Head h of the split view of a [L, H * dk] matrix: slice entry [i, t]
    reads column h * dk + t. -/
def headSlice {L H dk : ℕ} (X : Fin L → Fin (H * dk) → ℝ) (h : Fin H) :
    Fin L → Fin dk → ℝ :=
  fun i t => X i (headIdx H dk h t)

/-- Concatenation of per-head outputs back into [L, H * dk]
    (transpose(1, 2).contiguous().view(batch, -1, d_model)): flat feature
    index d reads coordinate d % dk of head d / dk. -/
def concatHeads {L H dk : ℕ} (Y : Fin H → Fin L → Fin dk → ℝ) :
    Fin L → Fin (H * dk) → ℝ :=
  fun i d =>
    Y ⟨(d : ℕ) / dk, (Nat.div_lt_iff_lt_mul (dk_pos_of_flat d)).mpr d.isLt⟩ i
      ⟨(d : ℕ) % dk, Nat.mod_lt _ (dk_pos_of_flat d)⟩

/-- Embeds MultiHeadAttention.forward for one batch element with
    d_model = H * dk: project query, key and value, split into H heads,
    run scaled_dot_product_attention per head under the shared mask,
    concatenate the head outputs and apply the output projection. -/
noncomputable def mhaFwd {L H dk : ℕ} (p : MHAP (H * dk))
    (query key value : Fin L → Fin (H * dk) → ℝ)
    (m : Option (Fin L → Fin L → Bool)) : Fin L → Fin (H * dk) → ℝ :=
  linFwd p.wo (concatHeads (fun h =>
    MultiHeadAttention.scaled_dot_product_attention dk
      (headSlice (linFwd p.wq query) h) (headSlice (linFwd p.wk key) h)
      (headSlice (linFwd p.wv value) h) m))

/-- Parameters of nn.LayerNorm(D): elementwise scale and shift. -/
structure LNP (D : ℕ) where
  gamma : Fin D → ℝ
  beta : Fin D → ℝ

/-- Row mean of a [L, D] matrix over the feature dimension. -/
noncomputable def rowMean {L D : ℕ} (x : Fin L → Fin D → ℝ) (i : Fin L) : ℝ :=
  (∑ j, x i j) / (D : ℝ)

/-- Row biased variance of a [L, D] matrix over the feature dimension. -/
noncomputable def rowVar {L D : ℕ} (x : Fin L → Fin D → ℝ) (i : Fin L) : ℝ :=
  (∑ j, (x i j - rowMean x i) ^ 2) / (D : ℝ)

/-- Embeds nn.LayerNorm.forward with the default eps = 1e-5, applied per
    position over the feature dimension. -/
noncomputable def lnFwd {L D : ℕ} (p : LNP D) (x : Fin L → Fin D → ℝ) :
    Fin L → Fin D → ℝ :=
  fun i j =>
    p.gamma j * ((x i j - rowMean x i) / Real.sqrt (rowVar x i + 1e-5)) +
      p.beta j

/-- Parameters of FeedForward: the two position-wise linear layers. -/
structure FFP (D dff : ℕ) where
  linear1 : LinP D dff
  linear2 : LinP dff D

/-- Elementwise ReLU on a [L, D] matrix. -/
noncomputable def reluM {L D : ℕ} (x : Fin L → Fin D → ℝ) :
    Fin L → Fin D → ℝ :=
  fun i j => max (x i j) 0

/-- Embeds FeedForward.forward: linear2(dropout(relu(linear1(x)))) with
    dropout in eval mode. -/
noncomputable def ffFwd {L D dff : ℕ} (p : FFP D dff)
    (x : Fin L → Fin D → ℝ) : Fin L → Fin D → ℝ :=
  linFwd p.linear2 (dropoutEval (reluM (linFwd p.linear1 x)))

/-- Pointwise sum of two [L, D] matrices (the residual connection). -/
noncomputable def addM {L D : ℕ} (x y : Fin L → Fin D → ℝ) :
    Fin L → Fin D → ℝ :=
  fun i j => x i j + y i j

/-- Parameters of one EncoderLayer. -/
structure EncLayerP (D dff : ℕ) where
  attn : MHAP D
  ff : FFP D dff
  norm1 : LNP D
  norm2 : LNP D

/-- Embeds EncoderLayer.forward for one batch element:
    x = norm1(x + dropout(self_attention(x, x, x, mask))), then
    x = norm2(x + dropout(feed_forward(x))), with dropout in eval mode;
    the [batch, 1, 1, src_len] source mask broadcasts to a per-head,
    per-query-constant key mask. -/
noncomputable def encLayerFwd {L H dk dff : ℕ} (p : EncLayerP (H * dk) dff)
    (x : Fin L → Fin (H * dk) → ℝ) (m : Fin L → Bool) :
    Fin L → Fin (H * dk) → ℝ :=
  let x1 := lnFwd p.norm1 (addM x (dropoutEval (mhaFwd p.attn x x x
    (some (fun _ j => m j)))))
  lnFwd p.norm2 (addM x1 (dropoutEval (ffFwd p.ff x1)))

/-- Constructor-time state of the encoder half of Transformer: source
    embedding table, positional-encoding table (indexed by position) and
    the independently parameterized encoder layers. -/
structure EncP (H dk dff : ℕ) where
  emb : ℤ → Fin (H * dk) → ℝ
  pe : ℕ → Fin (H * dk) → ℝ
  layers : List (EncLayerP (H * dk) dff)

/-- Embeds the pre-stack encoder computation of Transformer.forward for one
    batch row: dropout(positional_encoding(encoder_embedding(src))) in eval
    mode. -/
noncomputable def encEmbed {L H dk dff : ℕ} (P : EncP H dk dff)
    (src : Fin L → ℤ) : Fin L → Fin (H * dk) → ℝ :=
  dropoutEval (fun i j => P.emb (src i) j + P.pe (i : ℕ) j)

/-- Embeds the encoder side of Transformer.forward for one batch row:
    embed, add the positional encoding, dropout, then run the encoder
    layers sequentially with the source mask. -/
noncomputable def encoderRun {L H dk dff : ℕ} (P : EncP H dk dff)
    (src : Fin L → ℤ) (m : Fin L → Bool) : Fin L → Fin (H * dk) → ℝ :=
  P.layers.foldl (fun x p => encLayerFwd p x m) (encEmbed P src)

/-- Batched encoder run: batch rows are processed independently by every
    encoder operation. -/
noncomputable def encoderRunBatch {B L H dk dff : ℕ} (P : EncP H dk dff)
    (src : Fin B → Fin L → ℤ) (m : Fin B → Fin L → Bool) :
    Fin B → Fin L → Fin (H * dk) → ℝ :=
  fun b => encoderRun P (src b) (m b)

/-- Agreement of two activation matrices at every mask-valid position. -/
def MAgree {L D : ℕ} (m : Fin L → Bool) (x x' : Fin L → Fin D → ℝ) : Prop :=
  ∀ i, m i = true → ∀ d, x i d = x' i d

/-- Helper: a linear layer is position-wise, so equal input rows give equal
    output rows. -/
theorem linFwd_row {L dIn dOut : ℕ} (p : LinP dIn dOut)
    (x x' : Fin L → Fin dIn → ℝ) (i : Fin L) (h : ∀ t, x i t = x' i t) :
    ∀ o, linFwd p x i o = linFwd p x' i o := by
  intro o
  unfold linFwd
  congr 1
  exact Finset.sum_congr rfl (fun t _ => by rw [h t])

/-- Helper: the attention output at a query row is determined by that query
    row and by the key/value rows its mask row admits: a masked key
    position scores negative infinity in both runs and receives weight 0,
    contributing nothing to the weighted sum. -/
theorem sdpa_row_congr {Lq Lk dk dv : ℕ} (M : Fin Lq → Fin Lk → Bool)
    (Q Q' : Fin Lq → Fin dk → ℝ) (K K' : Fin Lk → Fin dk → ℝ)
    (V V' : Fin Lk → Fin dv → ℝ) (i : Fin Lq)
    (hQ : ∀ t, Q i t = Q' i t)
    (hK : ∀ j, M i j = true → ∀ t, K j t = K' j t)
    (hV : ∀ j, M i j = true → ∀ t, V j t = V' j t) (t : Fin dv) :
    MultiHeadAttention.scaled_dot_product_attention dk Q K V (some M) i t =
      MultiHeadAttention.scaled_dot_product_attention dk Q' K' V' (some M) i t := by
  have hnum : ∀ j, MultiHeadAttention.eexp
      (MultiHeadAttention.maskedScores
        (MultiHeadAttention.scores dk Q K) (some M) i j) =
      MultiHeadAttention.eexp
      (MultiHeadAttention.maskedScores
        (MultiHeadAttention.scores dk Q' K') (some M) i j) := by
    intro j
    rw [MultiHeadAttention.eexp_maskedScores,
      MultiHeadAttention.eexp_maskedScores]
    by_cases hm : M i j = true
    · have hm' : MultiHeadAttention.maskPass (some M) i j = true := hm
      rw [if_pos hm', if_pos hm']
      congr 1
      unfold MultiHeadAttention.scores
      congr 1
      exact Finset.sum_congr rfl (fun s _ => by rw [hQ s, hK j hm s])
    · have hm' : ¬ MultiHeadAttention.maskPass (some M) i j = true := hm
      rw [if_neg hm', if_neg hm']
  have hw : ∀ j, MultiHeadAttention.softmaxRows
      (MultiHeadAttention.maskedScores
        (MultiHeadAttention.scores dk Q K) (some M)) i j =
      MultiHeadAttention.softmaxRows
      (MultiHeadAttention.maskedScores
        (MultiHeadAttention.scores dk Q' K') (some M)) i j := by
    intro j
    unfold MultiHeadAttention.softmaxRows
    rw [hnum j]
    congr 1
    exact Finset.sum_congr rfl (fun j' _ => hnum j')
  unfold MultiHeadAttention.scaled_dot_product_attention dropoutEval
  refine Finset.sum_congr rfl (fun j _ => ?_)
  by_cases hm : M i j = true
  · rw [hw j, hV j hm t]
  · have hm' : ¬ MultiHeadAttention.maskPass (some M) i j = true := hm
    have hz : MultiHeadAttention.softmaxRows
        (MultiHeadAttention.maskedScores
          (MultiHeadAttention.scores dk Q K) (some M)) i j = 0 := by
      unfold MultiHeadAttention.softmaxRows
      rw [MultiHeadAttention.eexp_maskedScores, if_neg hm']
      exact zero_div _
    have hz' : MultiHeadAttention.softmaxRows
        (MultiHeadAttention.maskedScores
          (MultiHeadAttention.scores dk Q' K') (some M)) i j = 0 := by
      unfold MultiHeadAttention.softmaxRows
      rw [MultiHeadAttention.eexp_maskedScores, if_neg hm']
      exact zero_div _
    rw [hz, hz', zero_mul, zero_mul]

/-- Helper: multi-head self-attention rows at mask-valid positions agree
    when the inputs agree at mask-valid positions and the key mask is the
    broadcast source mask. -/
theorem mhaFwd_row_congr {L H dk : ℕ} (p : MHAP (H * dk)) (m : Fin L → Bool)
    (x x' : Fin L → Fin (H * dk) → ℝ) (hag : MAgree m x x')
    (i : Fin L) (hi : m i = true) (d : Fin (H * dk)) :
    mhaFwd p x x x (some (fun _ j => m j)) i d =
      mhaFwd p x' x' x' (some (fun _ j => m j)) i d := by
  unfold mhaFwd
  refine linFwd_row p.wo _ _ i (fun t => ?_) d
  show concatHeads _ i t = concatHeads _ i t
  unfold concatHeads
  apply sdpa_row_congr
  · intro s
    exact linFwd_row p.wq x x' i (hag i hi) _
  · intro j hmj s
    exact linFwd_row p.wk x x' j (hag j hmj) _
  · intro j hmj s
    exact linFwd_row p.wv x x' j (hag j hmj) _

/-- Helper: LayerNorm is position-wise. -/
theorem lnFwd_row {L D : ℕ} (p : LNP D) (x x' : Fin L → Fin D → ℝ)
    (i : Fin L) (h : ∀ d, x i d = x' i d) (j : Fin D) :
    lnFwd p x i j = lnFwd p x' i j := by
  have hmean : rowMean x i = rowMean x' i := by
    unfold rowMean
    congr 1
    exact Finset.sum_congr rfl (fun e _ => h e)
  have hvar : rowVar x i = rowVar x' i := by
    unfold rowVar
    congr 1
    exact Finset.sum_congr rfl (fun e _ => by rw [h e, hmean])
  unfold lnFwd
  rw [h j, hmean, hvar]

/-- Helper: FeedForward is position-wise. -/
theorem ffFwd_row {L D dff : ℕ} (p : FFP D dff) (x x' : Fin L → Fin D → ℝ)
    (i : Fin L) (h : ∀ d, x i d = x' i d) (j : Fin D) :
    ffFwd p x i j = ffFwd p x' i j := by
  unfold ffFwd dropoutEval
  refine linFwd_row p.linear2 _ _ i (fun t => ?_) j
  show reluM (linFwd p.linear1 x) i t = reluM (linFwd p.linear1 x') i t
  unfold reluM
  rw [linFwd_row p.linear1 x x' i h t]

/-- Helper: one encoder layer preserves agreement at mask-valid positions. -/
theorem encLayerFwd_agree {L H dk dff : ℕ} (p : EncLayerP (H * dk) dff)
    (m : Fin L → Bool) (x x' : Fin L → Fin (H * dk) → ℝ)
    (hag : MAgree m x x') :
    MAgree m (encLayerFwd p x m) (encLayerFwd p x' m) := by
  have h1 : ∀ i, m i = true → ∀ e,
      addM x (dropoutEval (mhaFwd p.attn x x x (some (fun _ j => m j)))) i e =
      addM x' (dropoutEval
        (mhaFwd p.attn x' x' x' (some (fun _ j => m j)))) i e :=
    fun i hi e => congrArg₂ (fun a b => a + b) (hag i hi e)
      (mhaFwd_row_congr p.attn m x x' hag i hi e)
  have h2 : MAgree m
      (lnFwd p.norm1 (addM x (dropoutEval
        (mhaFwd p.attn x x x (some (fun _ j => m j))))))
      (lnFwd p.norm1 (addM x' (dropoutEval
        (mhaFwd p.attn x' x' x' (some (fun _ j => m j)))))) :=
    fun i hi e => lnFwd_row _ _ _ i (h1 i hi) e
  intro i hi d
  have h3 : ∀ e,
      addM (lnFwd p.norm1 (addM x (dropoutEval
          (mhaFwd p.attn x x x (some (fun _ j => m j))))))
        (dropoutEval (ffFwd p.ff (lnFwd p.norm1 (addM x (dropoutEval
          (mhaFwd p.attn x x x (some (fun _ j => m j)))))))) i e =
      addM (lnFwd p.norm1 (addM x' (dropoutEval
          (mhaFwd p.attn x' x' x' (some (fun _ j => m j))))))
        (dropoutEval (ffFwd p.ff (lnFwd p.norm1 (addM x' (dropoutEval
          (mhaFwd p.attn x' x' x' (some (fun _ j => m j)))))))) i e :=
    fun e => congrArg₂ (fun a b => a + b) (h2 i hi e)
      (ffFwd_row p.ff _ _ i (h2 i hi) e)
  exact lnFwd_row p.norm2 _ _ i h3 d

/-- Helper: the encoder layer stack preserves agreement at mask-valid
    positions. -/
theorem encoderStack_agree {L H dk dff : ℕ}
    (ls : List (EncLayerP (H * dk) dff)) (m : Fin L → Bool) :
    ∀ x x' : Fin L → Fin (H * dk) → ℝ, MAgree m x x' →
      MAgree m (ls.foldl (fun x p => encLayerFwd p x m) x)
        (ls.foldl (fun x p => encLayerFwd p x m) x') := by
  induction ls with
  | nil => exact fun x x' hag => hag
  | cons p ls ih =>
    intro x x' hag
    exact ih _ _ (encLayerFwd_agree p m x x' hag)

/-- C5: two-run noninterference over the encoder stack of
    Transformer.forward.  For every parameterization, every per-row true
    (unpadded) length, and every two source batches that agree at all
    positions before the true length, if the shared src_mask marks exactly
    the positions beyond the true length as unattendable in both runs, then
    the encoder outputs at the real token positions are identical between
    the two runs. -/
theorem C5_encoder_padding_noninterference (B L H dk dff : ℕ)
    (P : EncP H dk dff) (trueLen : Fin B → ℕ)
    (src src' : Fin B → Fin L → ℤ) (m : Fin B → Fin L → Bool)
    (hm : ∀ (b : Fin B) (j : Fin L), m b j = true ↔ (j : ℕ) < trueLen b)
    (hsrc : ∀ (b : Fin B) (j : Fin L),
      (j : ℕ) < trueLen b → src b j = src' b j)
    (b : Fin B) (i : Fin L) (hi : (i : ℕ) < trueLen b) (d : Fin (H * dk)) :
    encoderRunBatch P src m b i d = encoderRunBatch P src' m b i d := by
  have hbase : MAgree (m b) (encEmbed P (src b)) (encEmbed P (src' b)) := by
    intro j hj e
    show P.emb (src b j) e + P.pe (j : ℕ) e =
      P.emb (src' b j) e + P.pe (j : ℕ) e
    rw [hsrc b j ((hm b j).mp hj)]
  exact encoderStack_agree P.layers (m b) _ _ hbase i ((hm b i).mpr hi) d

/-- Zero linear parameters for the C5 witness. -/
noncomputable def padDemoLin (dIn dOut : ℕ) : LinP dIn dOut :=
  ⟨fun _ _ => 0, fun _ => 0⟩

/-- One-layer encoder parameters for the C5 witness. -/
noncomputable def padDemoParams : EncP 1 1 1 :=
  ⟨fun z _ => (z : ℝ), fun p _ => (p : ℝ),
    [⟨⟨padDemoLin _ _, padDemoLin _ _, padDemoLin _ _, padDemoLin _ _⟩,
      ⟨padDemoLin _ _, padDemoLin _ _⟩,
      ⟨fun _ => 1, fun _ => 0⟩, ⟨fun _ => 1, fun _ => 0⟩⟩]⟩

/-- C5 witness source: real token 1 at position 0, filler 3 beyond. -/
def padDemoSrc : Fin 1 → Fin 2 → ℤ := fun _ j => if (j : ℕ) = 0 then 1 else 3

/-- C5 witness alternative source: same real token, filler 7 beyond. -/
def padDemoSrcAlt : Fin 1 → Fin 2 → ℤ :=
  fun _ j => if (j : ℕ) = 0 then 1 else 7

/-- C5 witness mask: only position 0 is attendable. -/
def padDemoMask : Fin 1 → Fin 2 → Bool := fun _ j => decide ((j : ℕ) < 1)

/-- C5 witness: the noninterference theorem applied to a concrete one-layer
    encoder with sources that agree only at the single real token
    position. -/
theorem C5_witness :
    ((∀ b : Fin 1, ∀ j : Fin 2,
        padDemoMask b j = true ↔ (j : ℕ) < (fun _ : Fin 1 => 1) b) ∧
     (∀ b : Fin 1, ∀ j : Fin 2, (j : ℕ) < (fun _ : Fin 1 => 1) b →
        padDemoSrc b j = padDemoSrcAlt b j)) ∧
    (∀ d, encoderRunBatch padDemoParams padDemoSrc padDemoMask 0 0 d =
      encoderRunBatch padDemoParams padDemoSrcAlt padDemoMask 0 0 d) :=
  ⟨⟨by decide, by decide⟩,
    fun d => C5_encoder_padding_noninterference 1 2 1 1 1 padDemoParams
      (fun _ => 1) padDemoSrc padDemoSrcAlt padDemoMask (by decide) (by decide)
      0 0 (by decide) d⟩

end TfSpec
